import Mathlib

/-!
Verification of the session-authentication core of the `httpproxy`
reverse-proxy gateway (package `sso`, file `sso.go`).

Go byte slices are modelled as `List Nat` (each element a byte value),
Go strings as `List Char` (sequences of Unicode scalar values), machine
integers as `Nat`/`Int` with explicit `% 2 ^ w` where overflow matters.
The AES block cipher itself lives in Go's standard library `crypto/aes`;
it is abstracted as a parameter `aes : List Nat → List Nat → List Nat`
(key, then one 16-byte block, to one 16-byte block), while everything the
repository's code adds around it — key-size validation, GCM counter mode,
GHASH authentication, the cookie wire format, the HTTP handlers — is
embedded faithfully below.
-/

set_option maxRecDepth 40000

deriving instance DecidableEq for Except

namespace HttpProxy

/-! ### Byte-level helpers -/

/-- XOR of two byte strings, truncated to the shorter one (Go `xorBytes`). -/
def xorBytes (a b : List Nat) : List Nat := List.zipWith (fun x y => x ^^^ y) a b

/-- Big-endian byte string to natural number. -/
def bytesToNatBE (l : List Nat) : Nat := l.foldl (fun acc b => acc * 256 + b) 0

/-- `k` big-endian bytes of `n` (mod 2^(8k)). -/
def natToBytesBE : Nat → Nat → List Nat
  | 0, _ => []
  | k + 1, n => natToBytesBE k (n / 256) ++ [n % 256]

/-! ### AES-GCM as implemented by Go `crypto/cipher` (GCM with the block
cipher abstracted), called by `encrypt`/`decrypt` in `sso.go`. -/

/-- The GHASH reduction polynomial in the GCM bit convention. -/
def gf128R : Nat := 0xe1000000000000000000000000000000

/-- One step of the shift-and-add multiplication in GF(2^128). -/
def gf128MulStep (x : Nat) (i : Nat) (zv : Nat × Nat) : Nat × Nat :=
  (if x.testBit i then zv.1 ^^^ zv.2 else zv.1,
   if zv.2 % 2 = 1 then zv.2 / 2 ^^^ gf128R else zv.2 / 2)

/-- Multiplication in GF(2^128), processing the bits of `x` from bit 127 down. -/
def gf128Mul (x y : Nat) : Nat :=
  ((List.range 128).foldl (fun zv i => gf128MulStep x (127 - i) zv) (0, y)).1

/-- GHASH over a list of 16-byte blocks with hash key `h`. -/
def ghashBlocks (h : Nat) (blocks : List (List Nat)) : Nat :=
  blocks.foldl (fun y b => gf128Mul (y ^^^ bytesToNatBE b) h) 0

/-- Split into 16-byte blocks, zero-padding the last partial block
(fuel-driven so that the kernel can evaluate it; fuel `l.length` suffices
because every step consumes at least one byte). -/
def chunksAux : Nat → List Nat → List (List Nat)
  | 0, _ => []
  | _ + 1, [] => []
  | f + 1, l => (l.take 16 ++ List.replicate (16 - l.length) 0) :: chunksAux f (l.drop 16)

def chunks16 (l : List Nat) : List (List Nat) := chunksAux l.length l

/-- The GHASH of the ciphertext with empty additional data, as `gcm.auth`
computes it: data blocks then the 64-bit bit-lengths block. -/
def gcmGhash (h : Nat) (ct : List Nat) : List Nat :=
  natToBytesBE 16 (ghashBlocks h (chunks16 ct ++ [natToBytesBE 8 0 ++ natToBytesBE 8 (ct.length * 8)]))

/-- Increment the rightmost 32 bits of the counter block (Go `gcmInc32`). -/
def incCounter (ctr : List Nat) : List Nat :=
  ctr.take 12 ++ natToBytesBE 4 ((bytesToNatBE (ctr.drop 12) + 1) % 4294967296)

/-- `k` consecutive counter-mode keystream blocks starting at `ctr`. -/
def ctrBlocks (E : List Nat → List Nat) (ctr : List Nat) : Nat → List (List Nat)
  | 0 => []
  | k + 1 => E ctr :: ctrBlocks E (incCounter ctr) k

/-- The first `n` keystream bytes of counter mode starting at `ctr`. -/
def keystream (E : List Nat → List Nat) (ctr : List Nat) (n : Nat) : List Nat :=
  (ctrBlocks E ctr ((n + 15) / 16)).flatten.take n

/-- `gcm.Seal` with a 12-byte nonce and no additional data: returns
ciphertext followed by the 16-byte tag. -/
def gcmSeal (E : List Nat → List Nat) (nonce pt : List Nat) : List Nat :=
  let J0 := nonce ++ [0, 0, 0, 1]
  let ct := xorBytes pt (keystream E (incCounter J0) pt.length)
  ct ++ xorBytes (gcmGhash (bytesToNatBE (E (List.replicate 16 0))) ct) (E J0)

/-- `gcm.Open` with a 12-byte nonce and no additional data: `none` is Go's
`cipher: message authentication failed` (also covering inputs shorter than
the tag). -/
def gcmOpen (E : List Nat → List Nat) (nonce data : List Nat) : Option (List Nat) :=
  if data.length < 16 then none else
  let J0 := nonce ++ [0, 0, 0, 1]
  let ct := data.take (data.length - 16)
  if data.drop (data.length - 16) =
      xorBytes (gcmGhash (bytesToNatBE (E (List.replicate 16 0))) ct) (E J0) then
    some (xorBytes ct (keystream E (incCounter J0) ct.length))
  else none

/-! ### The error values the `sso` package can produce or pass along. -/

inductive GoErr where
  /-- `http.ErrNoCookie`. -/
  | noCookie
  /-- `base64.CorruptInputError` from `DecodeString`. -/
  | b64Corrupt (pos : Nat)
  /-- `errors.New("nonce must be 12 characters in length")`. -/
  | nonceLen
  /-- `errors.New("encrypted cookie missing")`. -/
  | cookieMissing
  /-- `aes.KeySizeError` from `aes.NewCipher`. -/
  | keySize (n : Nat)
  /-- `cipher: message authentication failed` from `gcm.Open`. -/
  | authFailed
  /-- a `json.Decode` failure. -/
  | jsonErr
  deriving DecidableEq

/-- `aes.NewCipher` accepts exactly the AES key sizes 16, 24 and 32 bytes. -/
def aesKeyOk (key : List Nat) : Bool :=
  decide (key.length = 16 ∨ key.length = 24 ∨ key.length = 32)

/-- `encrypt(plaintext, key)` from `sso.go`: build the cipher (failing with
`aes.KeySizeError` on a wrong key size), then seal with a random 12-byte
nonce — the sampled nonce bytes are the explicit `nonce` argument — and
return `(ciphertext, nonce)`. -/
def encrypt (aes : List Nat → List Nat → List Nat) (plaintext key nonce : List Nat) :
    Except GoErr (List Nat × List Nat) :=
  if aesKeyOk key then .ok (gcmSeal (aes key) nonce plaintext, nonce)
  else .error (.keySize key.length)

/-- `decrypt(ciphertext, nonce, key)` from `sso.go`. -/
def decrypt (aes : List Nat → List Nat → List Nat) (ciphertext nonce key : List Nat) :
    Except GoErr (List Nat) :=
  if aesKeyOk key then
    match gcmOpen (aes key) nonce ciphertext with
    | some pt => .ok pt
    | none => .error .authFailed
  else .error (.keySize key.length)

/-! ### Standard base64 (`encoding/base64` `StdEncoding`), used for the
cookie wire form. -/

/-- Character `i` of the standard base64 alphabet. -/
def b64Chr (n : Nat) : Char :=
  if n < 26 then Char.ofNat (65 + n)
  else if n < 52 then Char.ofNat (97 + (n - 26))
  else if n < 62 then Char.ofNat (48 + (n - 52))
  else if n = 62 then Char.ofNat 43
  else Char.ofNat 47

/-- `base64.StdEncoding.EncodeToString`. -/
def base64Encode : List Nat → List Char
  | [] => []
  | [b0] => [b64Chr (b0 / 4), b64Chr (b0 % 4 * 16), Char.ofNat 61, Char.ofNat 61]
  | [b0, b1] => [b64Chr (b0 / 4), b64Chr (b0 % 4 * 16 + b1 / 16), b64Chr (b1 % 16 * 4), Char.ofNat 61]
  | b0 :: b1 :: b2 :: rest =>
    b64Chr (b0 / 4) :: b64Chr (b0 % 4 * 16 + b1 / 16) :: b64Chr (b1 % 16 * 4 + b2 / 64) ::
      b64Chr (b2 % 64) :: base64Encode rest

/-- The 6-bit value of a base64 alphabet character, `none` otherwise. -/
def b64Val (c : Char) : Option Nat :=
  let n := c.toNat
  if 65 ≤ n ∧ n ≤ 90 then some (n - 65)
  else if 97 ≤ n ∧ n ≤ 122 then some (n - 97 + 26)
  else if 48 ≤ n ∧ n ≤ 57 then some (n - 48 + 52)
  else if n = 43 then some 62
  else if n = 47 then some 63
  else none

/-- `base64.StdEncoding.DecodeString`: four-character quanta, `=` padding
only at the end, length a multiple of four. -/
def base64Decode : List Char → Except GoErr (List Nat)
  | [] => .ok []
  | c0 :: c1 :: c2 :: c3 :: rest =>
    match b64Val c0, b64Val c1 with
    | some v0, some v1 =>
      if c2 = Char.ofNat 61 then
        if c3 = Char.ofNat 61 ∧ rest = [] then .ok [v0 * 4 + v1 / 16]
        else .error (.b64Corrupt 2)
      else
        match b64Val c2 with
        | some v2 =>
          if c3 = Char.ofNat 61 then
            if rest = [] then .ok [v0 * 4 + v1 / 16, v1 % 16 * 16 + v2 / 4]
            else .error (.b64Corrupt 3)
          else
            match b64Val c3 with
            | some v3 =>
              (base64Decode rest).map
                (fun tl => (v0 * 4 + v1 / 16) :: (v1 % 16 * 16 + v2 / 4) :: (v2 % 4 * 64 + v3) :: tl)
            | none => .error (.b64Corrupt 3)
        | none => .error (.b64Corrupt 2)
    | _, _ => .error (.b64Corrupt 0)
  | _ => .error (.b64Corrupt 0)

/-! ### JSON serialization (`encoding/json`) of the `sso` data model.

`User` and `State` mirror the Go structs; `json.Marshal` writes the fields
in declaration order under their tag names, escaping strings as Go's
HTML-escaping encoder does. -/

structure User where
  id : Int
  name : List Char
  login : List Char
  email : List Char
  gravatarId : List Char
  isSyncing : Bool
  syncedAt : List Char
  correctScopes : Bool
  createdAt : List Char
  deriving DecidableEq

structure State where
  user : User
  token : List Char
  deriving DecidableEq

/-- The byte values of an ASCII string literal. -/
def asciiOf (s : String) : List Nat := s.data.map Char.toNat

/-- Lower-case hex digit byte of `n < 16`. -/
def hexDigitByte (n : Nat) : Nat := if n < 10 then 48 + n else 87 + n

/-- The UTF-8 bytes of code point `n`. -/
def utf8Bytes (n : Nat) : List Nat :=
  if n < 0x80 then [n]
  else if n < 0x800 then [0xc0 + n / 64, 0x80 + n % 64]
  else if n < 0x10000 then [0xe0 + n / 4096, 0x80 + n / 64 % 64, 0x80 + n % 64]
  else [0xf0 + n / 262144, 0x80 + n / 4096 % 64, 0x80 + n / 64 % 64, 0x80 + n % 64]

/-- How Go's JSON encoder (with its default HTML escaping) writes one
character of a string value. -/
def escCharBytes (c : Char) : List Nat :=
  let n := c.toNat
  if n = 34 then [92, 34]
  else if n = 92 then [92, 92]
  else if n = 10 then [92, 110]
  else if n = 13 then [92, 114]
  else if n = 9 then [92, 116]
  else if n < 32 ∨ n = 60 ∨ n = 62 ∨ n = 38 then
    [92, 117, 48, 48, hexDigitByte (n / 16), hexDigitByte (n % 16)]
  else if n = 0x2028 ∨ n = 0x2029 then [92, 117, 50, 48, 50, hexDigitByte (n % 16)]
  else if n < 0x80 then [n]
  else utf8Bytes n

/-- A JSON string literal: quote, escaped characters, quote. -/
def strLitBytes (s : List Char) : List Nat := 34 :: (s.map escCharBytes).flatten ++ [34]

/-- Little-endian decimal digits, fuel-driven (`fuel = n` suffices). -/
def natDigitsAux : Nat → Nat → List Nat
  | 0, _ => []
  | f + 1, n => if n = 0 then [] else n % 10 :: natDigitsAux f (n / 10)

def natDigitsLE (n : Nat) : List Nat := natDigitsAux n n

/-- Decimal digits of `n` as ASCII bytes (`strconv`'s rendering). -/
def natBytes (n : Nat) : List Nat :=
  if n = 0 then [48] else (natDigitsLE n).reverse.map (fun d => 48 + d)

/-- A JSON integer as `json.Marshal` writes a Go `int`. -/
def intBytes (i : Int) : List Nat :=
  if i < 0 then 45 :: natBytes i.natAbs else natBytes i.toNat

def boolBytes (b : Bool) : List Nat :=
  if b then asciiOf ("true") else asciiOf ("false")

/-- `json.Marshal` of a `User` value. -/
def marshalUser (u : User) : List Nat :=
  asciiOf ("\x7b\"id\":") ++ intBytes u.id ++
  asciiOf (",\"name\":") ++ strLitBytes u.name ++
  asciiOf (",\"login\":") ++ strLitBytes u.login ++
  asciiOf (",\"email\":") ++ strLitBytes u.email ++
  asciiOf (",\"gravatar_id\":") ++ strLitBytes u.gravatarId ++
  asciiOf (",\"is_syncing\":") ++ boolBytes u.isSyncing ++
  asciiOf (",\"synced_at\":") ++ strLitBytes u.syncedAt ++
  asciiOf (",\"correct_scopes\":") ++ boolBytes u.correctScopes ++
  asciiOf (",\"created_at\":") ++ strLitBytes u.createdAt ++
  asciiOf ("\x7d")

/-- `json.Marshal` of a `State` value — the session payload placed in the
cookie and in the `Travis-State` header. -/
def marshalState (st : State) : List Nat :=
  asciiOf ("\x7b\"user\":") ++ marshalUser st.user ++
  asciiOf (",\"token\":") ++ strLitBytes st.token ++
  asciiOf ("\x7d")

/-! ### JSON decoding (`json.Decode` into `*State`), modelled for the
grammar `json.Marshal` emits: the exact object shape above, plus `null`
(which leaves the `*State` pointer nil). -/

/-- Consume an expected literal byte sequence. -/
def pLit (pat l : List Nat) : Option (List Nat) :=
  if l.take pat.length = pat then some (l.drop pat.length) else none

def isDigitByte (b : Nat) : Bool := decide (48 ≤ b ∧ b ≤ 57)

/-- Consume a non-empty run of decimal digits. -/
def pNat (l : List Nat) : Option (Nat × List Nat) :=
  if l.takeWhile isDigitByte = [] then none
  else some ((l.takeWhile isDigitByte).foldl (fun a b => a * 10 + (b - 48)) 0,
             l.dropWhile isDigitByte)

/-- Consume a JSON integer (optional minus sign). -/
def pInt (l : List Nat) : Option (Int × List Nat) :=
  if l.take 1 = [45] then (pNat (l.drop 1)).map (fun p => (-(p.1 : Int), p.2))
  else (pNat l).map (fun p => ((p.1 : Int), p.2))

def pBool (l : List Nat) : Option (Bool × List Nat) :=
  match pLit (asciiOf ("true")) l with
  | some r => some (true, r)
  | none =>
    match pLit (asciiOf ("false")) l with
    | some r => some (false, r)
    | none => none

/-- The value of a hex digit byte. -/
def hexVal (b : Nat) : Option Nat :=
  if 48 ≤ b ∧ b ≤ 57 then some (b - 48)
  else if 97 ≤ b ∧ b ≤ 102 then some (b - 87)
  else if 65 ≤ b ∧ b ≤ 70 then some (b - 55)
  else none

/-- A backslash escape inside a JSON string. -/
def pEsc (l : List Nat) : Option (Char × List Nat) :=
  match l with
  | [] => none
  | b :: r =>
    if b = 34 then some (Char.ofNat 34, r)
    else if b = 92 then some (Char.ofNat 92, r)
    else if b = 47 then some (Char.ofNat 47, r)
    else if b = 98 then some (Char.ofNat 8, r)
    else if b = 102 then some (Char.ofNat 12, r)
    else if b = 110 then some (Char.ofNat 10, r)
    else if b = 114 then some (Char.ofNat 13, r)
    else if b = 116 then some (Char.ofNat 9, r)
    else if b = 117 then
      match r with
      | h1 :: h2 :: h3 :: h4 :: r' =>
        match hexVal h1, hexVal h2, hexVal h3, hexVal h4 with
        | some a, some bb, some c, some d =>
          some (Char.ofNat (a * 4096 + bb * 256 + c * 16 + d), r')
        | _, _, _, _ => none
      | _ => none
    else none

/-- The value of a UTF-8 continuation byte. -/
def contVal (b : Nat) : Option Nat :=
  if 128 ≤ b ∧ b ≤ 191 then some (b - 128) else none

/-- The characters of a JSON string body up to the closing quote,
fuel-driven: every character consumes at least one byte, so fuel
`l.length + 1` suffices. -/
def pStrChars : Nat → List Nat → Option (List Char × List Nat)
  | 0, _ => none
  | _ + 1, [] => none
  | fuel + 1, b :: r =>
    if b = 34 then some ([], r)
    else if b = 92 then
      (pEsc r).bind (fun p => (pStrChars fuel p.2).map (fun q => (p.1 :: q.1, q.2)))
    else if b < 0x80 then
      (pStrChars fuel r).map (fun q => (Char.ofNat b :: q.1, q.2))
    else if b < 0xc0 then none
    else if b < 0xe0 then
      match r with
      | b1 :: r' =>
        (contVal b1).bind (fun v1 =>
          if 0x80 ≤ (b - 0xc0) * 64 + v1 then
            (pStrChars fuel r').map
              (fun q => (Char.ofNat ((b - 0xc0) * 64 + v1) :: q.1, q.2))
          else none)
      | [] => none
    else if b < 0xf0 then
      match r with
      | b1 :: b2 :: r' =>
        (contVal b1).bind (fun v1 => (contVal b2).bind (fun v2 =>
          if 0x800 ≤ (b - 0xe0) * 4096 + v1 * 64 + v2 then
            (pStrChars fuel r').map
              (fun q => (Char.ofNat ((b - 0xe0) * 4096 + v1 * 64 + v2) :: q.1, q.2))
          else none))
      | _ => none
    else if b < 0xf8 then
      match r with
      | b1 :: b2 :: b3 :: r' =>
        (contVal b1).bind (fun v1 => (contVal b2).bind (fun v2 => (contVal b3).bind (fun v3 =>
          if 0x10000 ≤ (b - 0xf0) * 262144 + v1 * 4096 + v2 * 64 + v3 ∧
             (b - 0xf0) * 262144 + v1 * 4096 + v2 * 64 + v3 < 0x110000 then
            (pStrChars fuel r').map
              (fun q => (Char.ofNat ((b - 0xf0) * 262144 + v1 * 4096 + v2 * 64 + v3) :: q.1, q.2))
          else none)))
      | _ => none
    else none

/-- A quoted JSON string literal. -/
def pStrLit (l : List Nat) : Option (List Char × List Nat) :=
  match l with
  | 34 :: r => pStrChars (r.length + 1) r
  | _ => none

/-- A key literal followed by a string value. -/
def pKeyStr (key : String) (l : List Nat) : Option (List Char × List Nat) :=
  match pLit (asciiOf key) l with
  | none => none
  | some l1 => pStrLit l1

/-- A key literal followed by a boolean value. -/
def pKeyBool (key : String) (l : List Nat) : Option (Bool × List Nat) :=
  match pLit (asciiOf key) l with
  | none => none
  | some l1 => pBool l1

/-- Decode a `User` object in the shape `json.Marshal` writes. -/
def parseUser (l : List Nat) : Option (User × List Nat) :=
  match pLit (asciiOf ("\x7b\"id\":")) l with
  | none => none
  | some l1 =>
  match pInt l1 with
  | none => none
  | some (idv, l2) =>
  match pKeyStr (",\"name\":") l2 with
  | none => none
  | some (namev, l3) =>
  match pKeyStr (",\"login\":") l3 with
  | none => none
  | some (loginv, l4) =>
  match pKeyStr (",\"email\":") l4 with
  | none => none
  | some (emailv, l5) =>
  match pKeyStr (",\"gravatar_id\":") l5 with
  | none => none
  | some (gravv, l6) =>
  match pKeyBool (",\"is_syncing\":") l6 with
  | none => none
  | some (syncv, l7) =>
  match pKeyStr (",\"synced_at\":") l7 with
  | none => none
  | some (syncatv, l8) =>
  match pKeyBool (",\"correct_scopes\":") l8 with
  | none => none
  | some (scopesv, l9) =>
  match pKeyStr (",\"created_at\":") l9 with
  | none => none
  | some (createdv, l10) =>
  match pLit (asciiOf ("\x7d")) l10 with
  | none => none
  | some l11 =>
    some (⟨idv, namev, loginv, emailv, gravv, syncv, syncatv, scopesv, createdv⟩, l11)

/-- Decode a `State` object in the shape `json.Marshal` writes. -/
def parseState (l : List Nat) : Option (State × List Nat) :=
  match pLit (asciiOf ("\x7b\"user\":")) l with
  | none => none
  | some l1 =>
  match parseUser l1 with
  | none => none
  | some (userv, l2) =>
  match pKeyStr (",\"token\":") l2 with
  | none => none
  | some (tokenv, l3) =>
  match pLit (asciiOf ("\x7d")) l3 with
  | none => none
  | some l4 => some (⟨userv, tokenv⟩, l4)

/-- `json.NewDecoder(...).Decode(&state)` with `state : *State`: a JSON
`null` leaves the pointer nil (`none`); anything undecodable is an error. -/
def decodeStateBytes (b : List Nat) : Except GoErr (Option State) :=
  match pLit (asciiOf ("null")) b with
  | some _ => .ok none
  | none =>
    match parseState b with
    | some p => .ok (some p.1)
    | none => .error .jsonErr

/-! ### The gateway (`SSO` handlers).

A request is modelled by the parts the handlers read: the method, the
`travis.sso` cookie value (if the header carries one) and the value
`req.FormValue("sso_token")` would produce. The identity-provider exchange
of `handleLogin` (an external HTTP call) is a parameter, as are the
`Authorized` callback, the sampled nonce and the current time (seconds
since the Unix epoch). -/

structure GoURL where
  scheme : List Char
  host : List Char
  /-- the `String()` rendering of the whole URL. -/
  full : List Char
  deriving DecidableEq

structure SSOConfig where
  upstreamURL : GoURL
  apiURL : GoURL
  appPublicURL : GoURL
  encryptionKey : List Nat
  deriving DecidableEq

structure Request where
  method : List Char
  cookieSSO : Option (List Char)
  ssoToken : List Char
  deriving DecidableEq

/-- One `http.SetCookie` call, with the fields `sso.go` fills in. -/
structure SetCookie where
  name : List Char
  value : List Char
  path : List Char
  domain : List Char
  /-- `Expires`, in seconds since the Unix epoch. -/
  expiresSec : Nat
  deriving DecidableEq

/-- What a handler does with the response writer. -/
inductive Outcome where
  /-- `http.Error`: a status code and a body (with its trailing newline),
  after any `http.SetCookie` calls. -/
  | respond (status : Nat) (body : List Char) (cookies : List SetCookie)
  /-- `http.Redirect` (the status is `http.StatusFound` = 302 at every call
  site), after any `http.SetCookie` calls. -/
  | redirect (status : Nat) (loc : List Char) (cookies : List SetCookie)
  /-- the request is handed to the oxy forwarder. -/
  | forwarded (scheme host : List Char) (travisState : List Nat)
  /-- the login template is rendered with these parameters. -/
  | handshake (publicPath endpoint origin : List Char)
  /-- `http.Error` 405 with an `Allow` header. -/
  | methodNotAllowed (allow : List Char)
  /-- a Go runtime panic (out-of-range slice). -/
  | panicked
  deriving DecidableEq

/-- `strings.Index`: index of the first occurrence, `-1` if absent. -/
def strIndexAux (c : Char) : List Char → Nat → Int
  | [], _ => -1
  | a :: r, i => if a = c then (i : Int) else strIndexAux c r (i + 1)

def strIndex (s : List Char) (c : Char) : Int := strIndexAux c s 0

/-- `domainFromHost` from `sso.go`: cut at the first colon when its index
is positive, otherwise return the host unchanged. -/
def domainFromHost (host : List Char) : List Char :=
  if 0 < strIndex host (Char.ofNat 58) then host.take (strIndex host (Char.ofNat 58)).toNat
  else host

/-- The newline `http.Error` appends to the message. -/
def nlChar : Char := Char.ofNat 10

/-- Decimal rendering of a natural number as characters. -/
def natChars (n : Nat) : List Char := (natBytes n).map Char.ofNat

/-- `err.Error()` for each modelled error value. -/
def errMsg : GoErr → List Char
  | .noCookie => ("http: named cookie not present").data
  | .b64Corrupt p => ("illegal base64 data at input byte ").data ++ natChars p
  | .nonceLen => ("nonce must be 12 characters in length").data
  | .cookieMissing => ("encrypted cookie missing").data
  | .keySize n => ("crypto/aes: invalid key size ").data ++ natChars n
  | .authFailed => ("cipher: message authentication failed").data
  | .jsonErr => ("invalid character in json value").data

/-- Go slice expression `b[:hi]` on a slice of capacity `cap`: legal iff
`hi ≤ cap`, reading zero bytes past the length (the decode buffer is
zero-initialised by `make`). -/
def goSliceTo (b : List Nat) (cap hi : Nat) : Option (List Nat) :=
  if hi ≤ cap then some ((b ++ List.replicate (cap - b.length) 0).take hi) else none

/-- Go slice expression `b[lo:]`: legal iff `lo ≤ len(b)`. -/
def goSliceFrom (b : List Nat) (lo : Nat) : Option (List Nat) :=
  if lo ≤ b.length then some (b.drop lo) else none

/-- How `stateFromRequest` ends: with a runtime panic, an error, or a
(possibly nil) recovered session. -/
inductive SFROutcome where
  | panicked
  | failed (e : GoErr)
  | recovered (st : Option State)
  deriving DecidableEq

/-- `stateFromRequest` from `sso.go`: read the `travis.sso` cookie, base64
decode it, slice `[:12]` and `[12:]` (the decode buffer's capacity is
`DecodedLen(len(value)) = len(value)/4*3`), check the nonce length and the
ciphertext non-emptiness, decrypt, and JSON-decode the session. -/
def stateFromRequest (aes : List Nat → List Nat → List Nat) (key : List Nat)
    (req : Request) : SFROutcome :=
  match req.cookieSSO with
  | none => .failed .noCookie
  | some v =>
    match base64Decode v with
    | .error e => .failed e
    | .ok decoded =>
      match goSliceTo decoded (v.length / 4 * 3) 12 with
      | none => .panicked
      | some nonce =>
        match goSliceFrom decoded 12 with
        | none => .panicked
        | some encryptedCookie =>
          if nonce.length ≠ 12 then .failed .nonceLen
          else if encryptedCookie.length = 0 then .failed .cookieMissing
          else
            match decrypt aes encryptedCookie nonce key with
            | .error e => .failed e
            | .ok b =>
              match decodeStateBytes b with
              | .error e => .failed e
              | .ok st => .recovered st

/-- `setLogoutCookie`: clear `travis.sso` with expiry
1970-01-01 01:00:00 UTC, i.e. 3600 seconds after the epoch. -/
def logoutCookie (cfg : SSOConfig) : SetCookie :=
  { name := ("travis.sso").data, value := [], path := ("/").data,
    domain := domainFromHost cfg.appPublicURL.host, expiresSec := 3600 }

/-- `handleHandshake`: reject non-GET/HEAD with 405 `Allow: GET, HEAD`,
otherwise render the login template with its parameter map. -/
def handleHandshake (cfg : SSOConfig) (req : Request) : Outcome :=
  if req.method ≠ ("GET").data ∧ req.method ≠ ("HEAD").data then
    .methodNotAllowed (("GET, HEAD").data)
  else .handshake (("/sso/static").data) cfg.apiURL.full cfg.appPublicURL.full

/-- `handleProxy`: rewrite the request URL's scheme and host to the
upstream's, add the `Travis-State` header with the JSON session, forward. -/
def handleProxy (cfg : SSOConfig) (st : State) : Outcome :=
  .forwarded cfg.upstreamURL.scheme cfg.upstreamURL.host (marshalState st)

/-- `handleRequest`: recover the session; a failure other than
`http.ErrNoCookie` clears the cookie and answers 500 with the error text;
a recovered non-nil session is proxied; otherwise the handshake runs. -/
def handleRequest (aes : List Nat → List Nat → List Nat) (cfg : SSOConfig)
    (req : Request) : Outcome :=
  match stateFromRequest aes cfg.encryptionKey req with
  | .panicked => .panicked
  | .failed e =>
    if e = .noCookie then handleHandshake cfg req
    else .respond 500 (errMsg e ++ [nlChar]) [logoutCookie cfg]
  | .recovered (some st) => handleProxy cfg st
  | .recovered none => handleHandshake cfg req

/-- The identity-provider exchange of `handleLogin`, seen from the caller:
a transport error, or an HTTP response with its status, raw body and — for
a 200 — the result of decoding the body into `APIMessage` (`none` when the
body is undecodable; Go zero-values any missing field). -/
inductive IdpResult where
  | transportErr (msg : List Char)
  | httpResp (status : Nat) (body : List Char) (decoded : Option User)
  deriving DecidableEq

/-- `handleLogin` from `sso.go`. `authz u = (ok, err)` models the
`Authorized` callback; `nonce` the 12 random bytes `encrypt` samples;
`now` the `time.Now()` of the `SetCookie` call. The CSRF middleware wraps
this handler; the model describes the handler it protects. -/
def handleLogin (aes : List Nat → List Nat → List Nat) (cfg : SSOConfig)
    (authz : User → Bool × Option (List Char)) (idp : IdpResult)
    (nonce : List Nat) (now : Nat) (req : Request) : Outcome :=
  let token := if req.method = ("POST").data then req.ssoToken else []
  if token = [] then .redirect 302 (("/").data) []
  else
    match idp with
    | .transportErr m => .respond 500 (m ++ [nlChar]) []
    | .httpResp status body decoded =>
      if status ≠ 200 then
        .respond 500 (("upstream error, code=").data ++ natChars status ++
          (", body=").data ++ body ++ [nlChar, nlChar]) []
      else
        match decoded with
        | none => .respond 500 (("json decode error").data ++ [nlChar]) []
        | some user =>
          match (authz user).2 with
          | some m => .respond 500 (m ++ [nlChar]) []
          | none =>
            if (authz user).1 = false then
              .respond 403 (("access denied for user ").data ++ user.login ++ [nlChar]) []
            else
              match encrypt aes (marshalState ⟨user, token⟩) cfg.encryptionKey nonce with
              | .error e => .respond 500 (errMsg e ++ [nlChar]) []
              | .ok p =>
                .redirect 302 (("/").data)
                  [{ name := ("travis.sso").data,
                     value := base64Encode (p.2 ++ p.1),
                     path := ("/").data,
                     domain := domainFromHost cfg.appPublicURL.host,
                     expiresSec := now + 365 * 24 * 3600 }]

/-- Modelled from the spec: "Domain = host portion (strip port) of
configured public URL" — remove a trailing `:<digits>` port from the host,
leaving hosts without one unchanged. Stated only to compare the spec's
wording with the code's `domainFromHost`. -/
def specStripPort (host : List Char) : List Char :=
  match (host.reverse.dropWhile (fun c => isDigitByte c.toNat)) with
  | c :: restRev =>
    if c = Char.ofNat 58 ∧ (host.reverse.takeWhile (fun c => isDigitByte c.toNat)) ≠ [] then
      restRev.reverse
    else host
  | [] => host

/-! ### Lemmas: the GCM round trip -/

theorem xorBytes_length (a b : List Nat) : (xorBytes a b).length = min a.length b.length := by
  simp [xorBytes]

theorem xorBytes_cancel : ∀ (pt ks : List Nat), pt.length ≤ ks.length →
    xorBytes (xorBytes pt ks) ks = pt := by
  intro pt
  induction pt with
  | nil => intro ks _; simp [xorBytes]
  | cons p pr ih =>
    intro ks h
    match ks with
    | [] => simp at h
    | k :: kr =>
      simp only [xorBytes, List.zipWith_cons_cons] at *
      refine congrArg₂ _ ?_ (ih kr (by simpa using h))
      rw [Nat.xor_assoc, Nat.xor_self, Nat.xor_zero]

theorem natToBytesBE_length : ∀ (k n : Nat), (natToBytesBE k n).length = k := by
  intro k
  induction k with
  | zero => intro n; rfl
  | succ k ih => intro n; simp [natToBytesBE, ih]

theorem gcmGhash_length (h : Nat) (ct : List Nat) : (gcmGhash h ct).length = 16 := by
  simp [gcmGhash, natToBytesBE_length]

theorem ctrBlocks_flatten_length (E : List Nat → List Nat) (hE : ∀ b, (E b).length = 16) :
    ∀ (k : Nat) (ctr : List Nat), ((ctrBlocks E ctr k).flatten).length = 16 * k := by
  intro k
  induction k with
  | zero => intro ctr; rfl
  | succ k ih =>
    intro ctr
    simp only [ctrBlocks, List.flatten_cons, List.length_append, hE, ih]
    omega

theorem keystream_length (E : List Nat → List Nat) (hE : ∀ b, (E b).length = 16)
    (ctr : List Nat) (n : Nat) : (keystream E ctr n).length = n := by
  have h16 : n ≤ 16 * ((n + 15) / 16) := by omega
  simp [keystream, ctrBlocks_flatten_length E hE, h16]

/-- `gcm.Open` undoes `gcm.Seal` for every block function returning
16-byte blocks: the tag is recomputed identically and the counter-mode
XOR is an involution. -/
theorem gcmOpen_gcmSeal (E : List Nat → List Nat) (hE : ∀ b, (E b).length = 16)
    (nonce pt : List Nat) : gcmOpen E nonce (gcmSeal E nonce pt) = some pt := by
  have hks := keystream_length E hE (incCounter (nonce ++ [0, 0, 0, 1])) pt.length
  have hct : (xorBytes pt (keystream E (incCounter (nonce ++ [0, 0, 0, 1])) pt.length)).length
      = pt.length := by
    rw [xorBytes_length, hks, Nat.min_self]
  have htag : (xorBytes
      (gcmGhash (bytesToNatBE (E (List.replicate 16 0)))
        (xorBytes pt (keystream E (incCounter (nonce ++ [0, 0, 0, 1])) pt.length)))
      (E (nonce ++ [0, 0, 0, 1]))).length = 16 := by
    rw [xorBytes_length, gcmGhash_length, hE, Nat.min_self]
  simp only [gcmSeal, gcmOpen, List.length_append, hct, htag]
  rw [if_neg (by omega)]
  have hsub : pt.length + 16 - 16 = pt.length := by omega
  rw [hsub, List.take_left' hct, List.drop_left' hct, if_pos rfl, hct,
    xorBytes_cancel pt _ (by rw [hks])]

/-- With a 32-byte key, `decrypt` undoes `encrypt` and returns exactly the
plaintext handed to `encrypt`. -/
theorem decrypt_encrypt (aes : List Nat → List Nat → List Nat) (pt key nonce : List Nat)
    (hE : ∀ b, (aes key b).length = 16) (hkey : key.length = 32) :
    encrypt aes pt key nonce = .ok (gcmSeal (aes key) nonce pt, nonce) ∧
    decrypt aes (gcmSeal (aes key) nonce pt) nonce key = .ok pt := by
  have hok : aesKeyOk key = true := by simp [aesKeyOk, hkey]
  constructor
  · simp [encrypt, hok]
  · simp [decrypt, hok, gcmOpen_gcmSeal (aes key) hE nonce pt]

/-! ### Lemmas: base64 decoding cannot outgrow the decode buffer -/

/-- A successful `DecodeString` yields at most `DecodedLen(len(v)) =
len(v)/4*3` bytes — the capacity of the buffer `make` allocates. -/
theorem base64Decode_length : ∀ (v : List Char) (d : List Nat),
    base64Decode v = .ok d → d.length ≤ v.length / 4 * 3 := by
  intro v
  induction v using base64Decode.induct
  all_goals intro d h
  all_goals simp only [base64Decode, *] at h
  case case6 =>
    rename_i c0 c1 c2 c3 rest v0 v1 hv1 hv0 hc2 v2 hv2 hc3 v3 hv3 ih
    simp only [if_false] at h
    cases hrec : base64Decode rest with
    | error e => rw [hrec] at h; exact Except.noConfusion h
    | ok tl =>
      rw [hrec] at h
      simp only [Except.map] at h
      injection h with h1
      subst h1
      have h2 := ih tl hrec
      simp only [List.length_cons]
      omega
  all_goals
    first
    | exact Except.noConfusion h
    | (injection h with h1; subst h1; simp; try omega)

/-! ### Lemmas: the JSON decoder undoes `json.Marshal` -/

theorem pLit_append (pat rest : List Nat) : pLit pat (pat ++ rest) = some rest := by
  simp [pLit, List.take_left, List.drop_left]

theorem takeWhile_append_all (p : Nat → Bool) :
    ∀ (L rest : List Nat), (∀ b ∈ L, p b = true) → rest.takeWhile p = [] →
    (L ++ rest).takeWhile p = L ∧ (L ++ rest).dropWhile p = rest := by
  intro L
  induction L with
  | nil =>
    intro rest _ hr
    refine ⟨by simpa using hr, ?_⟩
    match rest with
    | [] => rfl
    | a :: t =>
      rw [List.takeWhile_cons] at hr
      split at hr
      · exact absurd hr (by simp)
      · simp only [List.nil_append]
        rwa [List.dropWhile_cons_of_neg]
  | cons a t ih =>
    intro rest hall hr
    have ha : p a = true := hall a (by simp)
    have ih' := ih rest (fun b hb => hall b (by simp [hb])) hr
    constructor
    · rw [List.cons_append, List.takeWhile_cons_of_pos ha, ih'.1]
    · rw [List.cons_append, List.dropWhile_cons_of_pos ha, ih'.2]

theorem natDigitsAux_eq : ∀ (f n : Nat), n ≤ f → natDigitsAux f n = Nat.digits 10 n := by
  intro f
  induction f with
  | zero =>
    intro n hn
    have h0 : n = 0 := by omega
    subst h0
    simp [natDigitsAux, Nat.digits_zero]
  | succ f ih =>
    intro n hn
    by_cases h0 : n = 0
    · subst h0; simp [natDigitsAux, Nat.digits_zero]
    · have hdiv : n / 10 ≤ f := by
        have := Nat.div_lt_self (Nat.pos_of_ne_zero h0) (by norm_num : 1 < 10)
        omega
      rw [natDigitsAux, if_neg h0,
        @Nat.digits_def' 10 (by norm_num) n (Nat.pos_of_ne_zero h0), ih (n / 10) hdiv]

theorem natBytes_all_digits (n : Nat) : ∀ b ∈ natBytes n, isDigitByte b = true := by
  intro b hb
  simp only [natBytes] at hb
  split at hb
  · simp at hb
    simp [hb, isDigitByte]
  · simp only [natDigitsLE, natDigitsAux_eq n n (Nat.le_refl n), List.mem_map,
      List.mem_reverse] at hb
    obtain ⟨d, hd, rfl⟩ := hb
    have := Nat.digits_lt_base (by norm_num) hd
    simp [isDigitByte]
    omega

theorem natBytes_ne_nil (n : Nat) : natBytes n ≠ [] := by
  simp only [natBytes]
  split
  · exact List.cons_ne_nil _ _
  · rename_i h0
    simp only [natDigitsLE, natDigitsAux_eq n n (Nat.le_refl n), ne_eq,
      List.map_eq_nil_iff, List.reverse_eq_nil_iff]
    exact Nat.digits_ne_nil_iff_ne_zero.mpr h0

theorem foldl_digits_val : ∀ (L : List Nat) (acc : Nat),
    List.foldl (fun a b => a * 10 + (b - 48)) acc (L.reverse.map (fun d => 48 + d)) =
      acc * 10 ^ L.length + Nat.ofDigits 10 L := by
  intro L
  induction L with
  | nil => intro acc; simp [Nat.ofDigits]
  | cons d ds ih =>
    intro acc
    rw [List.reverse_cons, List.map_append, List.foldl_append, ih acc]
    simp only [List.map_cons, List.map_nil, List.foldl_cons, List.foldl_nil,
      Nat.ofDigits_cons, List.length_cons]
    have hd : 48 + d - 48 = d := by omega
    rw [hd]
    ring

theorem pNat_natBytes (n : Nat) (rest : List Nat) (hrest : rest.takeWhile isDigitByte = []) :
    pNat (natBytes n ++ rest) = some (n, rest) := by
  have h := takeWhile_append_all isDigitByte (natBytes n) rest (natBytes_all_digits n) hrest
  have hval : (natBytes n).foldl (fun a b => a * 10 + (b - 48)) 0 = n := by
    by_cases h0 : n = 0
    · subst h0; rfl
    · simp only [natBytes, if_neg h0, natDigitsLE, natDigitsAux_eq n n (Nat.le_refl n)]
      rw [foldl_digits_val (Nat.digits 10 n) 0, Nat.ofDigits_digits]
      simp
  rw [pNat, h.1, h.2, if_neg (by simpa using natBytes_ne_nil n), hval]

theorem pInt_intBytes (i : Int) (rest : List Nat) (hrest : rest.takeWhile isDigitByte = []) :
    pInt (intBytes i ++ rest) = some (i, rest) := by
  have hhead : ∀ m : Nat, (natBytes m ++ rest).take 1 ≠ [45] := by
    intro m hc
    match hm : natBytes m, natBytes_ne_nil m with
    | b :: tb, _ =>
      rw [hm] at hc
      simp at hc
      have := natBytes_all_digits m b (by simp [hm])
      simp [isDigitByte, hc] at this
  by_cases hneg : i < 0
  · have habs : intBytes i = 45 :: natBytes i.natAbs := by simp [intBytes, hneg]
    rw [habs, List.cons_append, pInt, if_pos (by simp), List.drop_one, List.tail_cons,
      pNat_natBytes i.natAbs rest hrest]
    simp only [Option.map, Option.some.injEq, Prod.mk.injEq]
    exact ⟨by omega, trivial⟩
  · have habs : intBytes i = natBytes i.toNat := by simp [intBytes, hneg]
    rw [habs, pInt, if_neg (hhead i.toNat), pNat_natBytes i.toNat rest hrest]
    simp only [Option.map, Option.some.injEq, Prod.mk.injEq]
    exact ⟨by omega, trivial⟩

theorem pLit_append_ne (pat L rest : List Nat) (hlen : pat.length ≤ L.length)
    (hne : L.take pat.length ≠ pat) : pLit pat (L ++ rest) = none := by
  simp only [pLit, List.take_append_eq_append_take]
  rw [Nat.sub_eq_zero_of_le hlen, List.take_zero, List.append_nil]
  exact if_neg hne

theorem pBool_boolBytes (b : Bool) (rest : List Nat) :
    pBool (boolBytes b ++ rest) = some (b, rest) := by
  cases b with
  | true => simp [boolBytes, pBool, pLit_append]
  | false =>
    have hne : pLit (asciiOf ("true")) (asciiOf ("false") ++ rest) = none :=
      pLit_append_ne _ _ _ (by decide) (by decide)
    simp [boolBytes, pBool, hne, pLit_append]

theorem hexVal_hexDigitByte : ∀ h : Nat, h < 16 → hexVal (hexDigitByte h) = some h := by
  decide

theorem pStr_close (fuel : Nat) (tail : List Nat) :
    pStrChars (fuel + 1) (34 :: tail) = some ([], tail) := by
  simp [pStrChars]

theorem pStr_ascii (b : Nat) (h1 : b ≠ 34) (h2 : b ≠ 92) (h3 : b < 128)
    (fuel : Nat) (tail : List Nat) :
    pStrChars (fuel + 1) (b :: tail) =
      (pStrChars fuel tail).map (fun q => (Char.ofNat b :: q.1, q.2)) := by
  simp only [pStrChars]
  rw [if_neg h1, if_neg h2, if_pos h3]

theorem pStr_backslash (fuel : Nat) (tail : List Nat) :
    pStrChars (fuel + 1) (92 :: tail) =
      (pEsc tail).bind (fun p => (pStrChars fuel p.2).map (fun q => (p.1 :: q.1, q.2))) := by
  simp [pStrChars]

theorem pStr_2byte (b b1 : Nat) (hb : 192 ≤ b) (hb' : b < 224)
    (hv1 : 128 ≤ b1) (hv1' : b1 ≤ 191) (hn : 128 ≤ (b - 192) * 64 + (b1 - 128))
    (fuel : Nat) (tail : List Nat) :
    pStrChars (fuel + 1) (b :: b1 :: tail) =
      (pStrChars fuel tail).map
        (fun q => (Char.ofNat ((b - 192) * 64 + (b1 - 128)) :: q.1, q.2)) := by
  simp only [pStrChars]
  rw [if_neg (by omega), if_neg (by omega), if_neg (by omega), if_neg (by omega),
    if_pos (by omega)]
  simp only [contVal, if_pos (show 128 ≤ b1 ∧ b1 ≤ 191 by omega), Option.bind_some,
    Option.some_bind]
  rw [if_pos hn]

theorem pStr_3byte (b b1 b2 : Nat) (hb : 224 ≤ b) (hb' : b < 240)
    (hv1 : 128 ≤ b1) (hv1' : b1 ≤ 191) (hv2 : 128 ≤ b2) (hv2' : b2 ≤ 191)
    (hn : 2048 ≤ (b - 224) * 4096 + (b1 - 128) * 64 + (b2 - 128))
    (fuel : Nat) (tail : List Nat) :
    pStrChars (fuel + 1) (b :: b1 :: b2 :: tail) =
      (pStrChars fuel tail).map
        (fun q => (Char.ofNat ((b - 224) * 4096 + (b1 - 128) * 64 + (b2 - 128)) :: q.1, q.2)) := by
  simp only [pStrChars]
  rw [if_neg (by omega), if_neg (by omega), if_neg (by omega), if_neg (by omega),
    if_neg (by omega), if_pos (by omega)]
  simp only [contVal, if_pos (show 128 ≤ b1 ∧ b1 ≤ 191 by omega),
    if_pos (show 128 ≤ b2 ∧ b2 ≤ 191 by omega), Option.some_bind]
  rw [if_pos hn]

set_option maxHeartbeats 2000000 in
theorem pStr_4byte (b b1 b2 b3 : Nat) (hb : 240 ≤ b) (hb' : b < 248)
    (hv1 : 128 ≤ b1) (hv1' : b1 ≤ 191) (hv2 : 128 ≤ b2) (hv2' : b2 ≤ 191)
    (hv3 : 128 ≤ b3) (hv3' : b3 ≤ 191)
    (hn : 65536 ≤ (b - 240) * 262144 + (b1 - 128) * 4096 + (b2 - 128) * 64 + (b3 - 128))
    (hn' : (b - 240) * 262144 + (b1 - 128) * 4096 + (b2 - 128) * 64 + (b3 - 128) < 1114112)
    (fuel : Nat) (tail : List Nat) :
    pStrChars (fuel + 1) (b :: b1 :: b2 :: b3 :: tail) =
      (pStrChars fuel tail).map
        (fun q => (Char.ofNat ((b - 240) * 262144 + (b1 - 128) * 4096 + (b2 - 128) * 64 +
          (b3 - 128)) :: q.1, q.2)) := by
  simp only [pStrChars]
  rw [if_neg (by omega), if_neg (by omega), if_neg (by omega), if_neg (by omega),
    if_neg (by omega), if_neg (by omega), if_pos (by omega)]
  simp only [contVal, if_pos (show 128 ≤ b1 ∧ b1 ≤ 191 by omega),
    if_pos (show 128 ≤ b2 ∧ b2 ≤ 191 by omega),
    if_pos (show 128 ≤ b3 ∧ b3 ≤ 191 by omega), Option.some_bind]
  rw [if_pos (by exact ⟨hn, hn'⟩)]

theorem pEsc_u (h1 h2 h3 h4 : Nat) (v1 v2 v3 v4 : Nat) (tail : List Nat)
    (e1 : hexVal h1 = some v1) (e2 : hexVal h2 = some v2)
    (e3 : hexVal h3 = some v3) (e4 : hexVal h4 = some v4) :
    pEsc (117 :: h1 :: h2 :: h3 :: h4 :: tail) =
      some (Char.ofNat (v1 * 4096 + v2 * 256 + v3 * 16 + v4), tail) := by
  simp [pEsc, e1, e2, e3, e4]

/-- One encoded character is parsed back as itself: the escape produced by
`escCharBytes` is consumed and yields exactly `c`, leaving the tail. -/
theorem pStrChars_esc_cons (c : Char) (fuel : Nat) (tail : List Nat) :
    pStrChars (fuel + 1) (escCharBytes c ++ tail) =
      (pStrChars fuel tail).map (fun q => (c :: q.1, q.2)) := by
  have hv : c.toNat < 55296 ∨ (57344 ≤ c.toNat ∧ c.toNat < 1114112) := c.valid
  have hoc : Char.ofNat c.toNat = c := Char.ofNat_toNat c
  by_cases h34 : c.toNat = 34
  · have h' : Char.ofNat 34 = c := by rw [← h34, hoc]
    simp [escCharBytes, h34, pStr_backslash, pEsc, h']
    rw [h']
  by_cases h92 : c.toNat = 92
  · have h' : Char.ofNat 92 = c := by rw [← h92, hoc]
    simp [escCharBytes, h34, h92, pStr_backslash, pEsc, h']
    rw [h']
  by_cases h10 : c.toNat = 10
  · have h' : Char.ofNat 10 = c := by rw [← h10, hoc]
    simp [escCharBytes, h34, h92, h10, pStr_backslash, pEsc, h']
    rw [h']
  by_cases h13 : c.toNat = 13
  · have h' : Char.ofNat 13 = c := by rw [← h13, hoc]
    simp [escCharBytes, h34, h92, h10, h13, pStr_backslash, pEsc, h']
    rw [h']
  by_cases h9 : c.toNat = 9
  · have h' : Char.ofNat 9 = c := by rw [← h9, hoc]
    simp [escCharBytes, h34, h92, h10, h13, h9, pStr_backslash, pEsc, h']
    rw [h']
  by_cases hctrl : c.toNat < 32 ∨ c.toNat = 60 ∨ c.toNat = 62 ∨ c.toNat = 38
  · have he : escCharBytes c =
        [92, 117, 48, 48, hexDigitByte (c.toNat / 16), hexDigitByte (c.toNat % 16)] := by
      simp only [escCharBytes]
      rw [if_neg h34, if_neg h92, if_neg h10, if_neg h13, if_neg h9, if_pos hctrl]
    have e3 : hexVal (hexDigitByte (c.toNat / 16)) = some (c.toNat / 16) :=
      hexVal_hexDigitByte _ (by omega)
    have e4 : hexVal (hexDigitByte (c.toNat % 16)) = some (c.toNat % 16) :=
      hexVal_hexDigitByte _ (by omega)
    rw [he]
    simp only [List.cons_append, List.nil_append]
    rw [pStr_backslash, pEsc_u 48 48 _ _ 0 0 _ _ _ (by decide) (by decide) e3 e4,
      show 0 * 4096 + 0 * 256 + c.toNat / 16 * 16 + c.toNat % 16 = c.toNat by omega, hoc,
      Option.some_bind]
  by_cases hls : c.toNat = 8232
  · have he : escCharBytes c = [92, 117, 50, 48, 50, 56] := by
      simp [escCharBytes, h34, h92, h10, h13, h9, hctrl, hls, hexDigitByte]
    have h' : Char.ofNat (2 * 4096 + 0 * 256 + 2 * 16 + 8) = c := by
      rw [show 2 * 4096 + 0 * 256 + 2 * 16 + 8 = (8232 : Nat) by norm_num, ← hls, hoc]
    rw [he]
    simp only [List.cons_append, List.nil_append]
    rw [pStr_backslash,
      pEsc_u 50 48 50 56 2 0 2 8 _ (by decide) (by decide) (by decide) (by decide), h',
      Option.some_bind]
  by_cases hps : c.toNat = 8233
  · have he : escCharBytes c = [92, 117, 50, 48, 50, 57] := by
      simp [escCharBytes, h34, h92, h10, h13, h9, hctrl, hps, hexDigitByte]
    have h' : Char.ofNat (2 * 4096 + 0 * 256 + 2 * 16 + 9) = c := by
      rw [show 2 * 4096 + 0 * 256 + 2 * 16 + 9 = (8233 : Nat) by norm_num, ← hps, hoc]
    rw [he]
    simp only [List.cons_append, List.nil_append]
    rw [pStr_backslash,
      pEsc_u 50 48 50 57 2 0 2 9 _ (by decide) (by decide) (by decide) (by decide), h',
      Option.some_bind]
  by_cases hascii : c.toNat < 128
  · have he : escCharBytes c = [c.toNat] := by
      simp only [escCharBytes]
      rw [if_neg h34, if_neg h92, if_neg h10, if_neg h13, if_neg h9, if_neg hctrl,
        if_neg (by omega), if_pos hascii]
    rw [he]
    simp only [List.cons_append, List.nil_append]
    rw [pStr_ascii c.toNat h34 h92 hascii, hoc]
  have heu : escCharBytes c = utf8Bytes c.toNat := by
    simp only [escCharBytes]
    rw [if_neg h34, if_neg h92, if_neg h10, if_neg h13, if_neg h9, if_neg hctrl,
      if_neg (by omega), if_neg hascii]
  by_cases h2b : c.toNat < 2048
  · have he : escCharBytes c = [192 + c.toNat / 64, 128 + c.toNat % 64] := by
      rw [heu, utf8Bytes, if_neg hascii, if_pos h2b]
    rw [he]
    simp only [List.cons_append, List.nil_append]
    rw [pStr_2byte _ _ (by omega) (by omega) (by omega) (by omega) (by omega),
      show (192 + c.toNat / 64 - 192) * 64 + (128 + c.toNat % 64 - 128) = c.toNat by omega, hoc]
  by_cases h3b : c.toNat < 65536
  · have he : escCharBytes c =
        [224 + c.toNat / 4096, 128 + c.toNat / 64 % 64, 128 + c.toNat % 64] := by
      rw [heu, utf8Bytes, if_neg hascii, if_neg h2b, if_pos h3b]
    rw [he]
    simp only [List.cons_append, List.nil_append]
    rw [pStr_3byte _ _ _ (by omega) (by omega) (by omega) (by omega) (by omega) (by omega)
        (by omega),
      show (224 + c.toNat / 4096 - 224) * 4096 + (128 + c.toNat / 64 % 64 - 128) * 64 +
        (128 + c.toNat % 64 - 128) = c.toNat by omega, hoc]
  · have he : escCharBytes c = [240 + c.toNat / 262144, 128 + c.toNat / 4096 % 64,
        128 + c.toNat / 64 % 64, 128 + c.toNat % 64] := by
      rw [heu, utf8Bytes, if_neg hascii, if_neg h2b, if_neg h3b]
    rw [he]
    simp only [List.cons_append, List.nil_append]
    rw [pStr_4byte _ _ _ _ (by omega) (by omega) (by omega) (by omega) (by omega) (by omega)
        (by omega) (by omega) (by omega) (by omega),
      show (240 + c.toNat / 262144 - 240) * 262144 + (128 + c.toNat / 4096 % 64 - 128) * 4096 +
        (128 + c.toNat / 64 % 64 - 128) * 64 + (128 + c.toNat % 64 - 128) = c.toNat by omega,
      hoc]

/-- Every emitted escape is at least one byte. -/
theorem escCharBytes_length_pos (c : Char) : 0 < (escCharBytes c).length := by
  simp only [escCharBytes]
  by_cases h34 : c.toNat = 34
  · rw [if_pos h34]; simp
  rw [if_neg h34]
  by_cases h92 : c.toNat = 92
  · rw [if_pos h92]; simp
  rw [if_neg h92]
  by_cases h10 : c.toNat = 10
  · rw [if_pos h10]; simp
  rw [if_neg h10]
  by_cases h13 : c.toNat = 13
  · rw [if_pos h13]; simp
  rw [if_neg h13]
  by_cases h9 : c.toNat = 9
  · rw [if_pos h9]; simp
  rw [if_neg h9]
  by_cases hctrl : c.toNat < 32 ∨ c.toNat = 60 ∨ c.toNat = 62 ∨ c.toNat = 38
  · rw [if_pos hctrl]; simp
  rw [if_neg hctrl]
  by_cases hls : c.toNat = 8232 ∨ c.toNat = 8233
  · rw [if_pos hls]; simp
  rw [if_neg hls]
  by_cases hascii : c.toNat < 128
  · rw [if_pos hascii]; simp
  rw [if_neg hascii]
  simp only [utf8Bytes]
  rw [if_neg hascii]
  by_cases h2b : c.toNat < 2048
  · rw [if_pos h2b]; simp
  rw [if_neg h2b]
  by_cases h3b : c.toNat < 65536
  · rw [if_pos h3b]; simp
  rw [if_neg h3b]
  simp

theorem flatten_escCharBytes_length (s : List Char) :
    s.length ≤ ((s.map escCharBytes).flatten).length := by
  induction s with
  | nil => simp
  | cons c t ih =>
    simp only [List.map_cons, List.flatten_cons, List.length_append, List.length_cons]
    have := escCharBytes_length_pos c
    omega

/-- The whole encoded string body parses back to the original characters,
given enough fuel (one unit per character plus one for the closing quote). -/
theorem pStrChars_flatten (cs : List Char) : ∀ (fuel : Nat) (rest : List Nat),
    cs.length < fuel →
    pStrChars fuel ((cs.map escCharBytes).flatten ++ 34 :: rest) = some (cs, rest) := by
  induction cs with
  | nil =>
    intro fuel rest h
    match fuel, h with
    | f + 1, _ => simp [pStr_close]
  | cons c cs ih =>
    intro fuel rest h
    match fuel, h with
    | f + 1, h =>
      have hform : (((c :: cs).map escCharBytes).flatten ++ 34 :: rest) =
          escCharBytes c ++ ((cs.map escCharBytes).flatten ++ 34 :: rest) := by
        simp
      rw [hform, pStrChars_esc_cons, ih f rest (by simpa using h)]
      rfl

/-- A serialized string literal parses back to the original string. -/
theorem pStrLit_strLit (s : List Char) (rest : List Nat) :
    pStrLit (strLitBytes s ++ rest) = some (s, rest) := by
  have hform : strLitBytes s ++ rest =
      34 :: ((s.map escCharBytes).flatten ++ 34 :: rest) := by
    simp [strLitBytes]
  rw [hform]
  simp only [pStrLit]
  apply pStrChars_flatten
  have h1 := flatten_escCharBytes_length s
  simp only [List.length_append, List.length_cons]
  omega

theorem takeWhile_nil_append (p : Nat → Bool) (L X : List Nat)
    (hL : L.takeWhile p = []) (hne : L ≠ []) : (L ++ X).takeWhile p = [] := by
  match L, hne with
  | a :: t, _ =>
    rw [List.takeWhile_cons] at hL
    split at hL
    · exact absurd hL (by simp)
    · rw [List.cons_append, List.takeWhile_cons_of_neg (by assumption)]

theorem pKeyStr_append (key : String) (s : List Char) (rest : List Nat) :
    pKeyStr key (asciiOf key ++ (strLitBytes s ++ rest)) = some (s, rest) := by
  simp [pKeyStr, pLit_append, pStrLit_strLit]

theorem pKeyBool_append (key : String) (b : Bool) (rest : List Nat) :
    pKeyBool key (asciiOf key ++ (boolBytes b ++ rest)) = some (b, rest) := by
  simp [pKeyBool, pLit_append, pBool_boolBytes]

/-- The one integer field of the payload is followed by the `name` key, so
digit collection stops exactly at the end of the number. -/
theorem pInt_field (i : Int) (X : List Nat) :
    pInt (intBytes i ++ (asciiOf (",\"name\":") ++ X)) =
      some (i, asciiOf (",\"name\":") ++ X) :=
  pInt_intBytes i _ (takeWhile_nil_append _ _ _ (by decide) (by decide))

/-- `json.Decode` undoes `json.Marshal` on a `User`. -/
theorem parseUser_marshal (u : User) (rest : List Nat) :
    parseUser (marshalUser u ++ rest) = some (u, rest) := by
  simp only [marshalUser, List.append_assoc, parseUser, pLit_append, pInt_field,
    pKeyStr_append, pKeyBool_append]

/-- `json.Decode` undoes `json.Marshal` on a `State`. -/
theorem parseState_marshal (st : State) (rest : List Nat) :
    parseState (marshalState st ++ rest) = some (st, rest) := by
  simp only [marshalState, List.append_assoc, parseState, pLit_append,
    parseUser_marshal, pKeyStr_append]

/-- Decoding the serialized session gives back exactly the session. -/
theorem decodeStateBytes_marshal (st : State) :
    decodeStateBytes (marshalState st) = .ok (some st) := by
  have hnull : pLit (asciiOf ("null")) (marshalState st) = none := by
    have hform : marshalState st = asciiOf ("\x7b\"user\":") ++
        (marshalUser st.user ++ (asciiOf (",\"token\":") ++
          (strLitBytes st.token ++ asciiOf ("\x7d")))) := by
      simp [marshalState, List.append_assoc]
    rw [hform]
    exact pLit_append_ne _ _ _ (by decide) (by decide)
  have hparse : parseState (marshalState st) = some (st, []) := by
    have := parseState_marshal st []
    rwa [List.append_nil] at this
  rw [decodeStateBytes, hnull, hparse]

/-! ### Lemmas: `strings.Index` finds the first occurrence -/

theorem strIndexAux_spec (ch : Char) : ∀ (l : List Char) (i : Nat),
    strIndexAux ch l i =
      if ch ∈ l then ((l.findIdx (fun c => c = ch) + i : Nat) : Int) else -1 := by
  intro l
  induction l with
  | nil => intro i; simp [strIndexAux]
  | cons a t ih =>
    intro i
    simp only [strIndexAux]
    by_cases ha : a = ch
    · subst ha
      rw [if_pos rfl, if_pos (List.mem_cons_self a t)]
      simp [List.findIdx_cons]
    · have hne : ch ≠ a := fun h => ha h.symm
      rw [if_neg ha, ih (i + 1)]
      by_cases hm : ch ∈ t
      · rw [if_pos hm, if_pos (List.mem_cons_of_mem a hm)]
        have hfi : (a :: t).findIdx (fun c => c = ch) = t.findIdx (fun c => c = ch) + 1 := by
          simp [List.findIdx_cons, ha]
        rw [hfi]
        congr 1
        omega
      · rw [if_neg hm, if_neg (by simp [List.mem_cons, hne, hm])]

theorem strIndex_spec (host : List Char) (ch : Char) :
    strIndex host ch =
      if ch ∈ host then ((host.findIdx (fun c => c = ch) : Nat) : Int) else -1 := by
  rw [strIndex, strIndexAux_spec]
  simp

/-! ### Concrete instances used by the witnesses and counterexamples.

`demoAes` is a trivial stand-in block function (AES itself is outside the
repository); every theorem below that involves the cipher holds for an
arbitrary block function, and these constants only instantiate them. -/

def demoAes : List Nat → List Nat → List Nat := fun _ _ => List.replicate 16 0

def demoKey : List Nat := List.replicate 32 0

def demoNonce : List Nat := List.replicate 12 0

def demoUser : User := ⟨0, [], [], [], [], false, [], false, []⟩

def demoState : State := ⟨demoUser, ("T").data⟩

def demoCfg : SSOConfig :=
  { upstreamURL := ⟨("http").data, ("upstream:8899").data, ("http://upstream:8899").data⟩,
    apiURL := ⟨("https").data, ("api.github.com").data, ("https://api.github.com").data⟩,
    appPublicURL := ⟨("http").data, ("app.example.com").data, ("http://app.example.com").data⟩,
    encryptionKey := demoKey }

def demoCookie : List Char :=
  base64Encode (demoNonce ++ gcmSeal (demoAes demoKey) demoNonce (marshalState demoState))

def demoReq : Request := ⟨("GET").data, some demoCookie, []⟩

/-- Configuration whose public URL host is a bracketed IPv6 literal with a
port, used to compare `domainFromHost` with the spec's "port stripped". -/
def cexCfg : SSOConfig :=
  { upstreamURL := ⟨("http").data, ("upstream:8899").data, ("http://upstream:8899").data⟩,
    apiURL := ⟨("https").data, ("api.github.com").data, ("https://api.github.com").data⟩,
    appPublicURL := ⟨("http").data, ("[::1]:8080").data, ("http://[::1]:8080").data⟩,
    encryptionKey := demoKey }

def cexUser : User := ⟨1, [], ("alice").data, [], [], false, [], false, []⟩

/-- Whether an outcome renders the login (handshake) template. -/
def rendersLoginPage : Outcome → Bool
  | .handshake _ _ _ => true
  | _ => false

/-! ### The claims -/

/-- C1 (the code contradicts it): the spec requires cookies whose base64
decoding is shorter than 12 bytes to be rejected with `MalformedCookie`
before slicing; `stateFromRequest` instead evaluates `decodedCookie[:12]`
and `decodedCookie[12:]` first, which for such inputs is an out-of-range
slice — a runtime panic — for every block function and key (the dead
`len(nonce) != 12` check sits after the slicing). -/
theorem stateFromRequest_short_cookie_panics
    (aes : List Nat → List Nat → List Nat) (key : List Nat) (m t v : List Char)
    (d : List Nat) (hdec : base64Decode v = .ok d) (hlen : d.length < 12) :
    stateFromRequest aes key ⟨m, some v, t⟩ = .panicked := by
  simp only [stateFromRequest, hdec]
  by_cases hcap : 12 ≤ v.length / 4 * 3
  · rw [goSliceTo, if_pos hcap, goSliceFrom, if_neg (by omega)]
  · rw [goSliceTo, if_neg hcap]

/-- C1, at the failing input: the four-character cookie value `QQ==`
decodes to the single byte `0x41`, and session recovery panics. -/
theorem stateFromRequest_short_cookie_panics_witness :
    base64Decode (("QQ==").data) = .ok [65] ∧
    stateFromRequest demoAes demoKey ⟨("GET").data, some (("QQ==").data), []⟩ = .panicked :=
  ⟨by decide, stateFromRequest_short_cookie_panics demoAes demoKey _ _ _ [65]
    (by decide) (by decide)⟩

/-- C2: for every block function producing 16-byte blocks, every 32-byte
key, every 12-byte nonce and every session, decrypting the encryption of
the JSON serialization of the session with the same key and the returned
nonce succeeds and reproduces the serialized session, and decoding that
serialization reproduces the session exactly. -/
theorem encrypt_decrypt_session_roundtrip
    (aes : List Nat → List Nat → List Nat) (key nonce : List Nat) (s : State)
    (h16 : ∀ b, (aes key b).length = 16) (hkey : key.length = 32)
    (hnonce : nonce.length = 12) :
    ∃ ct, encrypt aes (marshalState s) key nonce = .ok (ct, nonce) ∧
      decrypt aes ct nonce key = .ok (marshalState s) ∧
      decodeStateBytes (marshalState s) = .ok (some s) := by
  obtain ⟨h1, h2⟩ := decrypt_encrypt aes (marshalState s) key nonce h16 hkey
  exact ⟨_, h1, h2, decodeStateBytes_marshal s⟩

/-- C2 at a concrete key, nonce and session. -/
theorem encrypt_decrypt_session_roundtrip_witness :
    ∃ ct, encrypt demoAes (marshalState demoState) demoKey demoNonce = .ok (ct, demoNonce) ∧
      decrypt demoAes ct demoNonce demoKey = .ok (marshalState demoState) ∧
      decodeStateBytes (marshalState demoState) = .ok (some demoState) :=
  encrypt_decrypt_session_roundtrip demoAes demoKey demoNonce demoState
    (fun _ => by simp [demoAes]) (by simp [demoKey]) (by simp [demoNonce])

/-- C3: when session recovery fails with any error other than the cookie
being absent, `handleRequest` answers 500 with the error detail, sets the
clearing `travis.sso` cookie (empty value, expiry 1970-01-01 01:00 UTC —
in the past of any later `now`), and neither forwards the request nor
renders the handshake page. -/
theorem handleRequest_invalid_cookie_500
    (aes : List Nat → List Nat → List Nat) (cfg : SSOConfig) (req : Request)
    (e : GoErr) (now : Nat)
    (hs : stateFromRequest aes cfg.encryptionKey req = .failed e)
    (hne : e ≠ .noCookie) (hnow : 3600 < now) :
    handleRequest aes cfg req = .respond 500 (errMsg e ++ [nlChar]) [logoutCookie cfg] ∧
    (logoutCookie cfg).name = ("travis.sso").data ∧
    (logoutCookie cfg).value = [] ∧
    (logoutCookie cfg).expiresSec < now ∧
    (∀ sc h ts, handleRequest aes cfg req ≠ .forwarded sc h ts) ∧
    (∀ p ep o, handleRequest aes cfg req ≠ .handshake p ep o) := by
  have h1 : handleRequest aes cfg req =
      .respond 500 (errMsg e ++ [nlChar]) [logoutCookie cfg] := by
    simp only [handleRequest, hs]
    rw [if_neg hne]
  refine ⟨h1, rfl, rfl, by simp [logoutCookie]; omega, ?_, ?_⟩
  · intro sc h ts
    rw [h1]
    simp
  · intro p ep o
    rw [h1]
    simp

/-- C3 at a concrete request: a cookie decoding to exactly 12 bytes fails
recovery with `encrypted cookie missing`, and the gateway answers 500 and
clears the cookie. -/
theorem handleRequest_invalid_cookie_500_witness :
    handleRequest demoAes demoCfg ⟨("GET").data, some (("AAAAAAAAAAAAAAAA").data), []⟩ =
      .respond 500 (errMsg .cookieMissing ++ [nlChar]) [logoutCookie demoCfg] ∧
    (logoutCookie demoCfg).name = ("travis.sso").data ∧
    (logoutCookie demoCfg).value = [] ∧
    (logoutCookie demoCfg).expiresSec < 1700000000 ∧
    (∀ sc h ts, handleRequest demoAes demoCfg
      ⟨("GET").data, some (("AAAAAAAAAAAAAAAA").data), []⟩ ≠ .forwarded sc h ts) ∧
    (∀ p ep o, handleRequest demoAes demoCfg
      ⟨("GET").data, some (("AAAAAAAAAAAAAAAA").data), []⟩ ≠ .handshake p ep o) :=
  handleRequest_invalid_cookie_500 demoAes demoCfg _ .cookieMissing 1700000000
    (by decide) (by decide) (by decide)

/-- C4 as amended: a successful login answers a 302 redirect to `/` and
sets `travis.sso` with path `/`, domain `domainFromHost` of the public
host (the host truncated at its first colon when that colon's index is
positive), expiry 365 days from `now`, and a value `base64(nonce ++ ct)`
whose ciphertext decrypts under the configured key to the JSON of
`{user, token}`, which decodes back to exactly that session. -/
theorem handleLogin_success
    (aes : List Nat → List Nat → List Nat) (cfg : SSOConfig)
    (authz : User → Bool × Option (List Char)) (body : List Char) (user : User)
    (nonce : List Nat) (now : Nat) (req : Request)
    (hkey : cfg.encryptionKey.length = 32)
    (h16 : ∀ b, (aes cfg.encryptionKey b).length = 16)
    (hm : req.method = ("POST").data) (hne : req.ssoToken ≠ [])
    (hauth : authz user = (true, none)) :
    ∃ ct,
      handleLogin aes cfg authz (.httpResp 200 body (some user)) nonce now req =
        .redirect 302 (("/").data)
          [{ name := ("travis.sso").data, value := base64Encode (nonce ++ ct),
             path := ("/").data, domain := domainFromHost cfg.appPublicURL.host,
             expiresSec := now + 365 * 24 * 3600 }] ∧
      decrypt aes ct nonce cfg.encryptionKey = .ok (marshalState ⟨user, req.ssoToken⟩) ∧
      decodeStateBytes (marshalState ⟨user, req.ssoToken⟩) = .ok (some ⟨user, req.ssoToken⟩) := by
  obtain ⟨h1, h2⟩ :=
    decrypt_encrypt aes (marshalState ⟨user, req.ssoToken⟩) cfg.encryptionKey nonce h16 hkey
  have htok : (if req.method = ("POST").data then req.ssoToken else []) = req.ssoToken := by
    rw [hm]
    simp
  refine ⟨gcmSeal (aes cfg.encryptionKey) nonce (marshalState ⟨user, req.ssoToken⟩), ?_, h2,
    decodeStateBytes_marshal _⟩
  simp only [handleLogin, htok, if_neg hne, hauth]
  rw [h1]
  simp

/-- C4 at a concrete login. -/
theorem handleLogin_success_witness :
    ∃ ct,
      handleLogin demoAes demoCfg (fun _ => (true, none))
          (.httpResp 200 [] (some cexUser)) demoNonce 1700000000
          ⟨("POST").data, none, ("T").data⟩ =
        .redirect 302 (("/").data)
          [{ name := ("travis.sso").data, value := base64Encode (demoNonce ++ ct),
             path := ("/").data, domain := domainFromHost demoCfg.appPublicURL.host,
             expiresSec := 1700000000 + 365 * 24 * 3600 }] ∧
      decrypt demoAes ct demoNonce demoCfg.encryptionKey =
        .ok (marshalState ⟨cexUser, ("T").data⟩) ∧
      decodeStateBytes (marshalState ⟨cexUser, ("T").data⟩) =
        .ok (some ⟨cexUser, ("T").data⟩) :=
  handleLogin_success demoAes demoCfg (fun _ => (true, none)) [] cexUser demoNonce
    1700000000 ⟨("POST").data, none, ("T").data⟩ (by decide)
    (fun _ => by simp [demoAes]) rfl (by decide) rfl

/-- C4, the counterexample to the claim as stated: with public URL host
`[::1]:8080` a successful login sets the cookie domain to `[` — the host
truncated at its first colon — which is not the host with the port
stripped, `[::1]`. -/
theorem handleLogin_ipv6_domain_counterexample :
    handleLogin demoAes cexCfg (fun _ => (true, none)) (.httpResp 200 [] (some cexUser))
        demoNonce 0 ⟨("POST").data, none, ("T").data⟩ =
      .redirect 302 (("/").data)
        [{ name := ("travis.sso").data,
           value := base64Encode (demoNonce ++ gcmSeal (demoAes demoKey) demoNonce
             (marshalState ⟨cexUser, ("T").data⟩)),
           path := ("/").data, domain := ("[").data, expiresSec := 31536000 }] ∧
    specStripPort (("[::1]:8080").data) = ("[::1]").data ∧
    ("[").data ≠ ("[::1]").data := by
  refine ⟨?_, by decide, by decide⟩
  decide

/-- C5: when the `Authorized` callback rejects the resolved user, the
login answers 403 with body `access denied for user <login>` and sets no
cookie. -/
theorem handleLogin_access_denied
    (aes : List Nat → List Nat → List Nat) (cfg : SSOConfig)
    (authz : User → Bool × Option (List Char)) (body : List Char) (user : User)
    (nonce : List Nat) (now : Nat) (req : Request)
    (hm : req.method = ("POST").data) (hne : req.ssoToken ≠ [])
    (hauth : authz user = (false, none)) :
    handleLogin aes cfg authz (.httpResp 200 body (some user)) nonce now req =
      .respond 403 (("access denied for user ").data ++ user.login ++ [nlChar]) [] := by
  have htok : (if req.method = ("POST").data then req.ssoToken else []) = req.ssoToken := by
    rw [hm]
    simp
  simp only [handleLogin, htok, if_neg hne, hauth]
  simp

/-- C5 at a concrete denied login. -/
theorem handleLogin_access_denied_witness :
    handleLogin demoAes demoCfg (fun _ => (false, none)) (.httpResp 200 [] (some cexUser))
        demoNonce 0 ⟨("POST").data, none, ("T").data⟩ =
      .respond 403 (("access denied for user ").data ++ cexUser.login ++ [nlChar]) [] :=
  handleLogin_access_denied demoAes demoCfg (fun _ => (false, none)) [] cexUser demoNonce 0
    ⟨("POST").data, none, ("T").data⟩ rfl (by decide) rfl

/-- C6 as amended: `encrypt` and `decrypt` fail with `aes.KeySizeError`
exactly when the key length is none of 16, 24 or 32 bytes (AES-128,
AES-192, AES-256); the spec's claim that every length other than 32 fails
is contradicted by the counterexample below. -/
theorem encrypt_decrypt_wrong_key_size
    (aes : List Nat → List Nat → List Nat) (pt ct key nonce : List Nat)
    (h16 : key.length ≠ 16) (h24 : key.length ≠ 24) (h32 : key.length ≠ 32) :
    encrypt aes pt key nonce = .error (.keySize key.length) ∧
    decrypt aes ct nonce key = .error (.keySize key.length) := by
  have hko : aesKeyOk key = false := by
    simp [aesKeyOk, h16, h24, h32]
  constructor
  · simp [encrypt, hko]
  · simp [decrypt, hko]

/-- C6, the amended claim at a concrete 5-byte key. -/
theorem encrypt_decrypt_wrong_key_size_witness :
    encrypt demoAes [] (List.replicate 5 0) demoNonce =
      .error (.keySize (List.replicate 5 0).length) ∧
    decrypt demoAes [] demoNonce (List.replicate 5 0) =
      .error (.keySize (List.replicate 5 0).length) :=
  encrypt_decrypt_wrong_key_size demoAes [] [] (List.replicate 5 0) demoNonce
    (by decide) (by decide) (by decide)

/-- C6, the counterexample to the claim as stated: a 16-byte key is not 32
bytes long, yet both `encrypt` and `decrypt` succeed with it. -/
theorem encrypt_sixteen_byte_key_succeeds :
    (List.replicate 16 0 : List Nat).length ≠ 32 ∧
    (encrypt demoAes (asciiOf ("hi")) (List.replicate 16 0) demoNonce).isOk = true ∧
    (decrypt demoAes (gcmSeal (demoAes (List.replicate 16 0)) demoNonce (asciiOf ("hi")))
      demoNonce (List.replicate 16 0)).isOk = true := by
  refine ⟨by decide, by decide, ?_⟩
  decide

/-- C7: a cookie value whose base64 decoding is exactly 12 bytes (a nonce
with an empty ciphertext) is rejected with the `encrypted cookie missing`
error; the outcome is the same for every block function and key, so no
decryption is attempted. -/
theorem stateFromRequest_empty_ciphertext_rejected
    (aes : List Nat → List Nat → List Nat) (key : List Nat) (m t v : List Char)
    (d : List Nat) (hdec : base64Decode v = .ok d) (hlen : d.length = 12) :
    stateFromRequest aes key ⟨m, some v, t⟩ = .failed .cookieMissing := by
  have hcap : 12 ≤ v.length / 4 * 3 := by
    have := base64Decode_length v d hdec
    omega
  simp only [stateFromRequest, hdec]
  rw [goSliceTo, if_pos hcap, goSliceFrom, if_pos (by omega)]
  have hdrop : d.drop 12 = [] := by
    rw [← hlen]
    exact List.drop_length d
  rw [hdrop]
  simp [List.length_take, hlen]

/-- C7 at the failing input: sixteen `A` characters decode to twelve zero
bytes, and recovery fails with `encrypted cookie missing`. -/
theorem stateFromRequest_empty_ciphertext_rejected_witness :
    base64Decode (("AAAAAAAAAAAAAAAA").data) = .ok (List.replicate 12 0) ∧
    stateFromRequest demoAes demoKey
      ⟨("GET").data, some (("AAAAAAAAAAAAAAAA").data), []⟩ = .failed .cookieMissing :=
  ⟨by decide, stateFromRequest_empty_ciphertext_rejected demoAes demoKey _ _ _
    (List.replicate 12 0) (by decide) (by decide)⟩

/-- C8 as amended: a GET or HEAD request to `/sso/login` reads no form
token, so `handleLogin` answers a 302 redirect to `/` (the handshake page
is then rendered by the `/` route for unauthenticated requests). -/
theorem handleLogin_get_redirects
    (aes : List Nat → List Nat → List Nat) (cfg : SSOConfig)
    (authz : User → Bool × Option (List Char)) (idp : IdpResult)
    (nonce : List Nat) (now : Nat) (req : Request)
    (hm : req.method = ("GET").data ∨ req.method = ("HEAD").data) :
    handleLogin aes cfg authz idp nonce now req = .redirect 302 (("/").data) [] := by
  have htok : (if req.method = ("POST").data then req.ssoToken else []) = [] := by
    rcases hm with h | h <;> rw [h] <;> rw [if_neg (by decide)]
  simp [handleLogin, htok]

/-- C8 at a concrete GET. -/
theorem handleLogin_get_redirects_witness :
    handleLogin demoAes demoCfg (fun _ => (true, none)) (.httpResp 200 [] none) demoNonce 0
      ⟨("GET").data, none, []⟩ = .redirect 302 (("/").data) [] :=
  handleLogin_get_redirects demoAes demoCfg (fun _ => (true, none)) (.httpResp 200 [] none)
    demoNonce 0 ⟨("GET").data, none, []⟩ (Or.inl rfl)

/-- C8, the counterexample to the claim as stated: a GET to `/sso/login`
produces a redirect, not a render of the handshake page. -/
theorem handleLogin_get_does_not_render :
    handleLogin demoAes demoCfg (fun _ => (true, none)) (.httpResp 200 [] none) demoNonce 0
      ⟨("GET").data, none, []⟩ = .redirect 302 (("/").data) [] ∧
    rendersLoginPage (handleLogin demoAes demoCfg (fun _ => (true, none))
      (.httpResp 200 [] none) demoNonce 0 ⟨("GET").data, none, []⟩) = false := by
  constructor
  · decide
  · decide

/-- C9: a request whose session cookie recovers a (non-nil) session is
forwarded with the URL scheme and host rewritten to the upstream's and a
`Travis-State` header equal to the JSON serialization of that session. -/
theorem handleRequest_authenticated_forwards
    (aes : List Nat → List Nat → List Nat) (cfg : SSOConfig) (req : Request) (st : State)
    (hs : stateFromRequest aes cfg.encryptionKey req = .recovered (some st)) :
    handleRequest aes cfg req =
      .forwarded cfg.upstreamURL.scheme cfg.upstreamURL.host (marshalState st) := by
  simp only [handleRequest, hs, handleProxy]

/-- C9 at a concrete valid cookie, exercising base64 decode, GCM open and
JSON decode end to end. -/
theorem handleRequest_authenticated_forwards_witness :
    stateFromRequest demoAes demoCfg.encryptionKey demoReq = .recovered (some demoState) ∧
    handleRequest demoAes demoCfg demoReq =
      .forwarded demoCfg.upstreamURL.scheme demoCfg.upstreamURL.host
        (marshalState demoState) := by
  have h : stateFromRequest demoAes demoCfg.encryptionKey demoReq =
      .recovered (some demoState) := by decide
  exact ⟨h, handleRequest_authenticated_forwards demoAes demoCfg demoReq demoState h⟩

/-- C10: `domainFromHost` returns the host unchanged when the host has no
colon or its first colon (`List.findIdx` of `:`) is at index 0, and
truncates at the first colon when that index is positive — so the
bracketed IPv6 host `[::1]:8080` is cut at index 1, yielding `[`. -/
theorem domainFromHost_first_colon (host : List Char) :
    (¬ (Char.ofNat 58) ∈ host → domainFromHost host = host) ∧
    (∀ k : Nat, (Char.ofNat 58) ∈ host → host.findIdx (fun c => c = Char.ofNat 58) = k →
      (0 < k → domainFromHost host = host.take k) ∧
      (k = 0 → domainFromHost host = host)) ∧
    domainFromHost (("[::1]:8080").data) = ("[").data := by
  refine ⟨?_, ?_, by decide⟩
  · intro h
    rw [domainFromHost, if_neg]
    rw [strIndex_spec, if_neg h]
    decide
  · intro k hmem hidx
    have hs : strIndex host (Char.ofNat 58) = (k : Int) := by
      rw [strIndex_spec, if_pos hmem, hidx]
    constructor
    · intro hk
      rw [domainFromHost, if_pos (by rw [hs]; exact_mod_cast hk), hs]
      simp
    · intro hk
      subst hk
      rw [domainFromHost, if_neg (by rw [hs]; decide)]

end HttpProxy
